import Mathlib

/-!
Verification of the softbody repository's soft-body model.

Shallow embedding conventions:
* JavaScript numbers are modelled as exact rationals (`ℚ`); `Math.sqrt` is
  modelled by `Rat.sqrt`, which is exact on perfect squares (every concrete
  value a claim mentions is a perfect square, and every claim that compares
  two square roots compares the same embedded function on both sides).
* Render-only state (three.js materials, colors, debug meshes, scenes) is not
  modelled; the physics-relevant state (particles, springs, triangle buffer,
  vertex buffers) is.
* The `SoftObject` class is embedded from its constructor together with the
  pressure/volume force model (`postStep`, `getVolume`, `getSurfaceArea`);
  the `HybridSoftObject` class from its constructor (inner shell offset by
  vertex normals, coupling springs).
* The JS `Map`-of-arrays `added` used for spring deduplication is represented
  by the list of directed pairs it contains: `added[u].includes(v)` holds iff
  `(u, v)` is in the list.
-/

namespace Softbody

/-- Three-component vector of rationals, modelling `CANNON.Vec3` and
`THREE.Vector3`. -/
structure Vec3 where
  x : ℚ
  y : ℚ
  z : ℚ
deriving DecidableEq

/-- The zero vector. -/
def Vec3.zero : Vec3 := ⟨0, 0, 0⟩

/-- Componentwise sum, modelling `Vec3.vadd`. -/
def Vec3.vadd (a b : Vec3) : Vec3 := ⟨a.x + b.x, a.y + b.y, a.z + b.z⟩

/-- Componentwise difference, modelling `Vec3.vsub`. -/
def Vec3.vsub (a b : Vec3) : Vec3 := ⟨a.x - b.x, a.y - b.y, a.z - b.z⟩

/-- Scalar multiple, modelling `Vec3.scale` / `Vector3.multiplyScalar`. -/
def Vec3.scale (v : Vec3) (s : ℚ) : Vec3 := ⟨s * v.x, s * v.y, s * v.z⟩

/-- Dot product, modelling `Vec3.dot`. -/
def Vec3.dot (a b : Vec3) : ℚ := a.x * b.x + a.y * b.y + a.z * b.z

/-- Cross product, modelling `Vec3.cross`. -/
def Vec3.cross (a b : Vec3) : Vec3 :=
  ⟨a.y * b.z - a.z * b.y, a.z * b.x - a.x * b.z, a.x * b.y - a.y * b.x⟩

/-- Squared Euclidean length. -/
def Vec3.normSq (v : Vec3) : ℚ := v.x * v.x + v.y * v.y + v.z * v.z

/-- Euclidean length, modelling `Vec3.norm` / `Vector3.length` (with
`Math.sqrt` idealized by `Rat.sqrt`). -/
def Vec3.norm (v : Vec3) : ℚ := Rat.sqrt v.normSq

/-- Unit vector in the direction of `v`, modelling `CANNON.Vec3.unit` and
`CANNON.Vec3.normalize`: when the length is not positive the result is the
zero vector. -/
def Vec3.unit (v : Vec3) : Vec3 :=
  if 0 < v.norm then v.scale (1 / v.norm) else Vec3.zero

/-- Distance between two points, modelling `THREE.Vector3.distanceTo`. -/
def Vec3.distanceTo (a b : Vec3) : ℚ := (a.vsub b).norm

/-- Body type of a soft object (`SoftType` in `soft-object.ts`). -/
inductive SoftType where
  | MASS_SPRING
  | PRESSURE
  | HYBRID
deriving DecidableEq

/-- Optional configuration record (`SoftOptions`), every field absent by
default as with a JS options object. -/
structure SoftOptions where
  type : Option SoftType := none
  pressure : Option ℚ := none
  stiffness : Option ℚ := none
  damping : Option ℚ := none
  point_mass : Option ℚ := none
  point_radius : Option ℚ := none
  point_damping : Option ℚ := none

/-- A point-mass particle: the physics-relevant state of one `CANNON.Body`
created by the `SoftObject` constructor (position, mass, linear damping). -/
structure Particle where
  position : Vec3
  mass : ℚ
  linearDamping : ℚ
deriving DecidableEq

/-- A spring (`CANNON.Spring`): endpoint particle indices into the owning
body's particle array, rest length, stiffness and damping. -/
structure Spring where
  bodyA : ℕ
  bodyB : ℕ
  restLength : ℚ
  stiffness : ℚ
  damping : ℚ
deriving DecidableEq

/-- Triangulation of the face list (the loop filling `indices_tri`): a
3-vertex face is emitted unchanged, a 4-vertex face `[a,b,c,d]` is split
into triangles `[a,b,c]` and `[c,d,a]`, any other length is skipped. -/
def triangulate : List (List ℕ) → List ℕ
  | [] => []
  | face :: rest =>
    (match face with
      | [a, b, c] => [a, b, c]
      | [a, b, c, d] => [a, b, c, c, d, a]
      | _ => []) ++ triangulate rest

/-- Particle creation loop of the constructor: one particle per three
consecutive entries of the flat vertex array, at that position, with the
configured mass and damping.  (A trailing fragment of fewer than three
entries, which in JS would yield a particle at an undefined position, is
outside every claim — all claims assume a length `3·V` array — and is
dropped here.) -/
def mkBodies (point_mass point_damping : ℚ) : List ℚ → List Particle
  | x :: y :: z :: rest =>
    ⟨⟨x, y, z⟩, point_mass, point_damping⟩ :: mkBodies point_mass point_damping rest
  | _ => []

/-- Vertex `j` of a flat coordinate array (entries `3j, 3j+1, 3j+2`).
Out-of-range reads default to `0`; every claim restricts to in-range
indices. -/
def vertexAt (vertices : List ℚ) (j : ℕ) : Vec3 :=
  ⟨vertices.getD (3 * j) 0, vertices.getD (3 * j + 1) 0, vertices.getD (3 * j + 2) 0⟩

/-- All combinatorial vertex pairs of a face, modelling
`face.map((p1, i) => face.slice(i + 1).map(p2 => [p1, p2])).flat()`. -/
def allPairs : List ℕ → List (ℕ × ℕ)
  | [] => []
  | p1 :: rest => rest.map (fun p2 => (p1, p2)) ++ allPairs rest

/-- The vertex pairs the spring network builder connects for one face:
perimeter pairs only for a quad face of a PRESSURE body, all combinatorial
pairs otherwise. -/
def pairsOfFace (ty : SoftType) (face : List ℕ) : List (ℕ × ℕ) :=
  if ty = SoftType.PRESSURE ∧ face.length = 4 then
    match face with
    | [a, b, c, d] => [(a, b), (b, c), (c, d), (d, a)]
    | _ => []
  else allPairs face

/-- State of the spring-construction loop: the `added` map (as the list of
directed pairs it marks) and the springs built so far. -/
structure BuildState where
  added : List (ℕ × ℕ)
  springs : List Spring

/-- The spring built for one vertex pair: endpoints `pair`, rest length the
distance between the two vertices' initial positions (`vec1.distanceTo(vec2)`
over positions read from the input vertex array), and the owning body's
stiffness and damping. -/
def mkSpringOf (vertices : List ℚ) (stiffness damping : ℚ) (pair : ℕ × ℕ) : Spring :=
  ⟨pair.1, pair.2,
   (vertexAt vertices pair.1).distanceTo (vertexAt vertices pair.2),
   stiffness, damping⟩

/-- Body of the `pairs.forEach` callback: skip the pair if
`added[pair[0]].includes(pair[1])`, otherwise mark both directions and
append the spring for the pair. -/
def addSpringStep (vertices : List ℚ) (stiffness damping : ℚ)
    (st : BuildState) (pair : ℕ × ℕ) : BuildState :=
  if (pair.1, pair.2) ∈ st.added then st
  else
    { added := st.added ++ [(pair.1, pair.2), (pair.2, pair.1)],
      springs := st.springs ++ [mkSpringOf vertices stiffness damping pair] }

/-- The full spring set built by the constructor: for each face in order,
for each of its pairs in order, run `addSpringStep`. -/
def buildSprings (ty : SoftType) (vertices : List ℚ) (stiffness damping : ℚ)
    (faces : List (List ℕ)) : List Spring :=
  ((faces.flatMap (pairsOfFace ty)).foldl
    (addSpringStep vertices stiffness damping) ⟨[], []⟩).springs

/-- The physics-relevant state of a constructed `SoftObject`:
resolved configuration, the `CANNON.Trimesh` data (flat vertex array and
triangle index buffer), the particle array, the spring array, and the
three.js position attribute. -/
structure SoftObject where
  type : SoftType
  pressure : ℚ
  stiffness : ℚ
  damping : ℚ
  point_mass : ℚ
  point_radius : ℚ
  point_damping : ℚ
  shapeVertices : List ℚ
  indices : List ℕ
  bodies : List Particle
  springs : List Spring
  meshPositions : List ℚ

/-- The `SoftObject` constructor: option resolution with the source's
defaults (type PRESSURE; pressure 50 but 0 for MASS_SPRING; stiffness 200;
damping 0.4; point_mass 0.05; point_radius 0.01; point_damping 0.3),
triangulation, particle creation, spring network construction, and the
vertex buffers (both the collision `Trimesh` and the render mesh receive
the input coordinate array unchanged). -/
def mkSoftObject (vertices : List ℚ) (faces : List (List ℕ))
    (options : Option SoftOptions) : SoftObject :=
  let ty := (options.bind SoftOptions.type).getD SoftType.PRESSURE
  let pressure :=
    if ty = SoftType.MASS_SPRING then 0
    else (options.bind SoftOptions.pressure).getD 50
  let stiffness := (options.bind SoftOptions.stiffness).getD 200
  let damping := (options.bind SoftOptions.damping).getD (2/5)
  let point_mass := (options.bind SoftOptions.point_mass).getD (1/20)
  let point_radius := (options.bind SoftOptions.point_radius).getD (1/100)
  let point_damping := (options.bind SoftOptions.point_damping).getD (3/10)
  { type := ty
    pressure := pressure
    stiffness := stiffness
    damping := damping
    point_mass := point_mass
    point_radius := point_radius
    point_damping := point_damping
    shapeVertices := vertices
    indices := triangulate faces
    bodies := mkBodies point_mass point_damping vertices
    springs := buildSprings ty vertices stiffness damping faces
    meshPositions := vertices }

/-- Number of triangles of the triangle buffer
(`this.shape.indices.length / 3`). -/
def numTris (o : SoftObject) : ℕ := o.indices.length / 3

/-- Vertices of triangle `i`, modelling `Trimesh.getTriangleVertices`. -/
def getTriangleVertices (o : SoftObject) (i : ℕ) : Vec3 × Vec3 × Vec3 :=
  (vertexAt o.shapeVertices (o.indices.getD (3 * i) 0),
   vertexAt o.shapeVertices (o.indices.getD (3 * i + 1) 0),
   vertexAt o.shapeVertices (o.indices.getD (3 * i + 2) 0))

/-- Signed tetrahedron volume of a triangle relative to the origin
(`signedVolume` in `soft-object.ts`): `a · (b × c) / 6`. -/
def signedVolume (a b c : Vec3) : ℚ := a.dot (b.cross c) / 6

/-- Triangle area (`area` in `soft-object.ts`): half the magnitude of the
edge cross product `(b − a) × (c − a)`. -/
def area (a b c : Vec3) : ℚ := ((b.vsub a).cross (c.vsub a)).norm / 2

/-- Enclosed volume (`getVolume`): absolute value of the sum of the signed
tetrahedron volumes of all triangles of the triangle buffer. -/
def getVolume (o : SoftObject) : ℚ :=
  |((List.range (numTris o)).map (fun i =>
      match getTriangleVertices o i with
      | (a, b, c) => signedVolume a b c)).sum|

/-- Surface area (`getSurfaceArea`): absolute value of the sum of the
per-triangle areas. -/
def getSurfaceArea (o : SoftObject) : ℚ :=
  |((List.range (numTris o)).map (fun i =>
      match getTriangleVertices o i with
      | (a, b, c) => area a b c)).sum|

/-- Triangle normal, modelling `CANNON.Trimesh.computeNormal`: the cross
product `(c − b) × (b − a)`, normalized when it is nonzero. -/
def computeNormal (va vb vc : Vec3) : Vec3 :=
  let n := (vc.vsub vb).cross (vb.vsub va)
  if n = Vec3.zero then n else n.unit

/-- The volume-force part of `postStep`: with
`force = -1 / getVolume() * pressure`, for every triangle of the triangle
buffer apply the vector `normal.scale(force * tri_area)` to each of the
triangle's three vertex bodies.  The result is the list of
(particle index, force vector) applications in program order.  (In JS a
zero volume makes `force` infinite rather than raising an error; the loop
is not skipped.  `ℚ` division by zero returns `0`, so statements about the
zero-volume case only use the fact that the applications still happen.) -/
def pressureApplications (o : SoftObject) : List (ℕ × Vec3) :=
  let force := -1 / getVolume o * o.pressure
  (List.range (numTris o)).flatMap fun i =>
    match getTriangleVertices o i with
    | (a, b, c) =>
      let tri_area := area a b c
      let normal := computeNormal a b c
      [(o.indices.getD (3 * i) 0, normal.scale (force * tri_area)),
       (o.indices.getD (3 * i + 1) 0, normal.scale (force * tri_area)),
       (o.indices.getD (3 * i + 2) 0, normal.scale (force * tri_area))]

/-- Consecutive index triples of a flat triangle index buffer. -/
def triples : List ℕ → List (ℕ × ℕ × ℕ)
  | a :: b :: c :: rest => (a, b, c) :: triples rest
  | _ => []

/-- One step of `THREE.BufferGeometry.computeVertexNormals` over an indexed
geometry: add the (area-weighted) face normal `(pC − pB) × (pA − pB)` of one
triangle into the accumulated normals of its three vertices. -/
def accumNormals (vertices : List ℚ) (normals : List Vec3)
    (t : ℕ × ℕ × ℕ) : List Vec3 :=
  match t with
  | (vA, vB, vC) =>
    let pA := vertexAt vertices vA
    let pB := vertexAt vertices vB
    let pC := vertexAt vertices vC
    let n := (pC.vsub pB).cross (pA.vsub pB)
    let l1 := normals.set vA ((normals.getD vA Vec3.zero).vadd n)
    let l2 := l1.set vB ((l1.getD vB Vec3.zero).vadd n)
    l2.set vC ((l2.getD vC Vec3.zero).vadd n)

/-- Normalization used by `THREE.BufferGeometry.normalizeNormals`
(`Vector3.normalize` divides by `length() || 1`, so a zero vector is left
unchanged). -/
def normalizeThree (v : Vec3) : Vec3 :=
  v.scale (1 / (if v.norm = 0 then 1 else v.norm))

/-- Per-vertex normals of `THREE.BufferGeometry.computeVertexNormals`:
accumulate each triangle's face normal into its three vertices, then
normalize each accumulated vector. -/
def computeVertexNormals (vertices : List ℚ) (indices : List ℕ) : List Vec3 :=
  ((triples indices).foldl (accumNormals vertices)
    (List.replicate (vertices.length / 3) Vec3.zero)).map normalizeThree

/-- Inner-shell vertex loop of the `HybridSoftObject` constructor: vertex
`i` of the inner shell is the outer vertex `i` moved by `-offset` along its
vertex normal, componentwise on the flat arrays. -/
def innerVertices (offset : ℚ) : List ℚ → List Vec3 → List ℚ
  | x :: y :: z :: rest, n :: nrest =>
    (x - offset * n.x) :: (y - offset * n.y) :: (z - offset * n.z) ::
      innerVertices offset rest nrest
  | _, _ => []

/-- Optional configuration record of `HybridSoftObject` (`HybridOptions`);
render-only fields (`color`, `debug`) are not modelled. -/
structure HybridOptions where
  outer_options : Option SoftOptions := none
  inner_options : Option SoftOptions := none
  offset : Option ℚ := none
  stiffness : Option ℚ := none
  damping : Option ℚ := none

/-- The physics-relevant state of a constructed `HybridSoftObject`: the two
shells and the radial coupling springs.  In a coupling spring, `bodyA`
indexes `inner_body.bodies` and `bodyB` indexes `outer_body.bodies`. -/
structure HybridSoftObject where
  offset : ℚ
  stiffness : ℚ
  damping : ℚ
  inner_body : SoftObject
  outer_body : SoftObject
  springs : List Spring

/-- Radial coupling spring loop:
`this.inner_body.bodies.forEach((body_a, i) => ...)` pairs inner body `i`
with `this.outer_body.bodies[i]` and gives the spring rest length equal to
the distance between the two bodies' current (construction-time)
positions. -/
def couplingSprings (stiffness damping : ℚ)
    (inner_body outer_body : SoftObject) : List Spring :=
  (List.range inner_body.bodies.length).map fun i =>
    let body_a := inner_body.bodies.getD i ⟨Vec3.zero, 0, 0⟩
    let body_b := outer_body.bodies.getD i ⟨Vec3.zero, 0, 0⟩
    ⟨i, i, body_a.position.distanceTo body_b.position, stiffness, damping⟩

/-- The `HybridSoftObject` constructor (`hybrid-soft-object.ts`): resolve
options (offset 0.2, stiffness 200, damping 0.4), compute vertex normals of
the outer mesh, offset the inner vertices inward, build the inner and outer
shells (both forced to type PRESSURE), and add one coupling spring per
vertex index. -/
def mkHybridSoftObject (vertices : List ℚ) (faces : List (List ℕ))
    (options : Option HybridOptions) : HybridSoftObject :=
  let offset := (options.bind HybridOptions.offset).getD (1/5)
  let stiffness := (options.bind HybridOptions.stiffness).getD 200
  let damping := (options.bind HybridOptions.damping).getD (2/5)
  let inner_options := (options.bind HybridOptions.inner_options).getD {}
  let outer_options := (options.bind HybridOptions.outer_options).getD {}
  let indices_tri := triangulate faces
  let normals := computeVertexNormals vertices indices_tri
  let vertices_inner := innerVertices offset vertices normals
  let inner_body := mkSoftObject vertices_inner faces
    (some { inner_options with type := some SoftType.PRESSURE })
  let outer_body := mkSoftObject vertices faces
    (some { outer_options with type := some SoftType.PRESSURE })
  { offset := offset
    stiffness := stiffness
    damping := damping
    inner_body := inner_body
    outer_body := outer_body
    springs := couplingSprings stiffness damping inner_body outer_body }

/-!
Attach/detach model for `addSelf`/`removeSelf`.

`CANNON.World` is modelled by the identity-relevant part of its state: the
list of registered `postStep` listener identities, the list of body
identities in the world, and a counter producing the identity of the next
closure created by `this.postStep.bind(this)` (each `bind` call creates a
fresh function object, distinct from every existing one).
-/

/-- World state: registered `postStep` listener identities, body
identities, and the next fresh closure identity. -/
structure WorldState where
  postStepListeners : List ℕ
  bodyIds : List ℕ
  nextBoundFn : ℕ
deriving DecidableEq

/-- Listener registration, modelling `EventTarget.addEventListener`: push
the listener unless it is already present. -/
def addEventListenerW (w : WorldState) (listener : ℕ) : WorldState :=
  if listener ∈ w.postStepListeners then w
  else { w with postStepListeners := w.postStepListeners ++ [listener] }

/-- Listener removal, modelling `EventTarget.removeEventListener`: remove
the first occurrence of the listener; silently do nothing when it is not
registered. -/
def removeEventListenerW (w : WorldState) (listener : ℕ) : WorldState :=
  { w with postStepListeners := w.postStepListeners.erase listener }

/-- Modelling `World.addBody`: push the body unless already present. -/
def addBodyW (w : WorldState) (b : ℕ) : WorldState :=
  if b ∈ w.bodyIds then w else { w with bodyIds := w.bodyIds ++ [b] }

/-- Modelling `World.remove`: remove the first occurrence of the body;
silently do nothing when it is not in the world. -/
def removeBodyW (w : WorldState) (b : ℕ) : WorldState :=
  { w with bodyIds := w.bodyIds.erase b }

/-- The world effect of `SoftObject.addSelf`: add every particle body, then
register `this.postStep.bind(this)` — a freshly created closure — as a
`postStep` listener. -/
def addSelf (objBodies : List ℕ) (w : WorldState) : WorldState :=
  let w1 := objBodies.foldl addBodyW w
  let w2 := addEventListenerW w1 w1.nextBoundFn
  { w2 with nextBoundFn := w2.nextBoundFn + 1 }

/-- The world effect of `SoftObject.removeSelf`: call
`removeEventListener` with `this.postStep.bind(this)` — again a freshly
created closure, necessarily distinct from the listener `addSelf`
registered — then remove every particle body. -/
def removeSelf (objBodies : List ℕ) (w : WorldState) : WorldState :=
  let w1 := removeEventListenerW w w.nextBoundFn
  let w2 := { w1 with nextBoundFn := w1.nextBoundFn + 1 }
  objBodies.foldl removeBodyW w2

/-!
Concrete meshes used by the claims' tests and witnesses.
-/

/-- Unit cube: 8 vertices at `±0.5` per axis. -/
def cubeVertices : List ℚ :=
  [-1/2, -1/2, -1/2,  1/2, -1/2, -1/2,  1/2, 1/2, -1/2,  -1/2, 1/2, -1/2,
   -1/2, -1/2,  1/2,  1/2, -1/2,  1/2,  1/2, 1/2,  1/2,  -1/2, 1/2,  1/2]

/-- Unit cube: 6 quad faces with consistent outward winding. -/
def cubeFaces : List (List ℕ) :=
  [[0, 3, 2, 1], [4, 5, 6, 7], [0, 1, 5, 4], [2, 3, 7, 6], [0, 4, 7, 3], [1, 2, 6, 5]]

/-- Unit cube soft body with default options (type PRESSURE). -/
def cubeBody : SoftObject := mkSoftObject cubeVertices cubeFaces none

/-- Unit cube soft body constructed as MASS_SPRING type. -/
def cubeBodyMS : SoftObject :=
  mkSoftObject cubeVertices cubeFaces (some { type := some SoftType.MASS_SPRING })

/-- Degenerate flat mesh: one single triangle, enclosing no volume. -/
def flatVertices : List ℚ := [0, 0, 0, 1, 0, 0, 0, 1, 0]

/-- Face list of the flat mesh. -/
def flatFaces : List (List ℕ) := [[0, 1, 2]]

/-- Flat soft body with default options (type PRESSURE, pressure 50). -/
def flatBody : SoftObject := mkSoftObject flatVertices flatFaces none

/-!
Helper lemmas.
-/

/-- Two springs span the same unordered particle pair. -/
def sameUnorderedPair (s t : Spring) : Prop :=
  (s.bodyA = t.bodyA ∧ s.bodyB = t.bodyB) ∨ (s.bodyA = t.bodyB ∧ s.bodyB = t.bodyA)

instance : DecidableRel sameUnorderedPair := fun s t => by
  unfold sameUnorderedPair; infer_instance

/-- Invariant of the spring-construction loop: every built spring is marked
in both directions in the `added` map, and no two built springs span the
same unordered pair. -/
def DedupInv (st : BuildState) : Prop :=
  (∀ s ∈ st.springs,
    (s.bodyA, s.bodyB) ∈ st.added ∧ (s.bodyB, s.bodyA) ∈ st.added) ∧
  st.springs.Pairwise fun s t => ¬ sameUnorderedPair s t

theorem addSpringStep_dedupInv {vertices : List ℚ} {stiffness damping : ℚ}
    {st : BuildState} (pair : ℕ × ℕ) (h : DedupInv st) :
    DedupInv (addSpringStep vertices stiffness damping st pair) := by
  unfold addSpringStep
  split
  · exact h
  · rename_i hnot
    refine ⟨?_, ?_⟩
    · intro s hs
      rcases List.mem_append.1 hs with hs | hs
      · rcases h.1 s hs with ⟨h1, h2⟩
        exact ⟨List.mem_append_left _ h1, List.mem_append_left _ h2⟩
      · simp only [List.mem_singleton] at hs
        subst hs
        simp [mkSpringOf]
    · rw [List.pairwise_append]
      refine ⟨h.2, List.pairwise_singleton _ _, ?_⟩
      intro s hs t ht hsame
      simp only [List.mem_singleton] at ht
      subst ht
      simp only [sameUnorderedPair, mkSpringOf] at hsame
      rcases hsame with ⟨hA, hB⟩ | ⟨hA, hB⟩
      · apply hnot
        rw [← hA, ← hB]
        exact (h.1 s hs).1
      · apply hnot
        rw [← hA, ← hB]
        exact (h.1 s hs).2

theorem foldl_dedupInv (vertices : List ℚ) (stiffness damping : ℚ) :
    ∀ (l : List (ℕ × ℕ)) (st : BuildState), DedupInv st →
      DedupInv (l.foldl (addSpringStep vertices stiffness damping) st)
  | [], _, h => h
  | p :: l, st, h =>
    foldl_dedupInv vertices stiffness damping l _ (addSpringStep_dedupInv p h)

theorem buildSprings_dedup (ty : SoftType) (vertices : List ℚ)
    (stiffness damping : ℚ) (faces : List (List ℕ)) :
    (buildSprings ty vertices stiffness damping faces).Pairwise
      fun s t => ¬ sameUnorderedPair s t :=
  (foldl_dedupInv vertices stiffness damping _ ⟨[], []⟩
    ⟨by simp, List.Pairwise.nil⟩).2

theorem foldl_springs_origin (vertices : List ℚ) (stiffness damping : ℚ) :
    ∀ (l : List (ℕ × ℕ)) (st : BuildState),
      ∀ s ∈ (l.foldl (addSpringStep vertices stiffness damping) st).springs,
        s ∈ st.springs ∨ ∃ p ∈ l, s = mkSpringOf vertices stiffness damping p := by
  intro l
  induction l with
  | nil => intro st s hs; exact Or.inl hs
  | cons p l ih =>
    intro st s hs
    rcases ih (addSpringStep vertices stiffness damping st p) s hs with hmem | ⟨q, hq, rfl⟩
    · unfold addSpringStep at hmem
      split at hmem
      · exact Or.inl hmem
      · rcases List.mem_append.1 hmem with hmem | hmem
        · exact Or.inl hmem
        · simp only [List.mem_singleton] at hmem
          exact Or.inr ⟨p, List.mem_cons_self _ _, hmem⟩
    · exact Or.inr ⟨q, List.mem_cons_of_mem _ hq, rfl⟩

theorem buildSprings_origin (ty : SoftType) (vertices : List ℚ)
    (stiffness damping : ℚ) (faces : List (List ℕ)) :
    ∀ s ∈ buildSprings ty vertices stiffness damping faces,
      ∃ p ∈ faces.flatMap (pairsOfFace ty),
        s = mkSpringOf vertices stiffness damping p := by
  intro s hs
  rcases foldl_springs_origin vertices stiffness damping _ ⟨[], []⟩ s hs with h | h
  · simp at h
  · exact h

theorem mem_allPairs : ∀ (f : List ℕ) (p : ℕ × ℕ),
    p ∈ allPairs f → p.1 ∈ f ∧ p.2 ∈ f := by
  intro f
  induction f with
  | nil => simp [allPairs]
  | cons a f ih =>
    intro p hp
    simp only [allPairs, List.mem_append, List.mem_map] at hp
    rcases hp with ⟨q, hq, heq⟩ | hp
    · subst heq
      exact ⟨by simp, by simp only [List.mem_cons]; exact Or.inr hq⟩
    · rcases ih p hp with ⟨h1, h2⟩
      exact ⟨List.mem_cons_of_mem _ h1, List.mem_cons_of_mem _ h2⟩

theorem allPairs_ne : ∀ (f : List ℕ), f.Nodup → ∀ p ∈ allPairs f, p.1 ≠ p.2 := by
  intro f
  induction f with
  | nil => simp [allPairs]
  | cons a f ih =>
    intro hf p hp
    simp only [allPairs, List.mem_append, List.mem_map] at hp
    rcases List.nodup_cons.1 hf with ⟨ha, hf'⟩
    rcases hp with ⟨q, hq, heq⟩ | hp
    · subst heq
      intro heq2
      simp only at heq2
      exact ha (heq2 ▸ hq)
    · exact ih hf' p hp

theorem mem_pairsOfFace (ty : SoftType) (f : List ℕ) (p : ℕ × ℕ)
    (hp : p ∈ pairsOfFace ty f) : p.1 ∈ f ∧ p.2 ∈ f := by
  unfold pairsOfFace at hp
  split at hp
  · rename_i hcond
    rcases f with _ | ⟨a, f⟩
    · simp at hcond
    rcases f with _ | ⟨b, f⟩
    · simp at hcond
    rcases f with _ | ⟨c, f⟩
    · simp at hcond
    rcases f with _ | ⟨d, f⟩
    · simp at hcond
    rcases f with _ | ⟨e, f⟩
    · simp only [List.mem_cons, List.mem_singleton, List.not_mem_nil,
        or_false] at hp
      rcases hp with rfl | rfl | rfl | rfl <;> simp
    · have := hcond.2
      simp only [List.length_cons] at this
      omega
  · exact mem_allPairs f p hp

theorem pairsOfFace_ne (ty : SoftType) (f : List ℕ) (hf : f.Nodup)
    (p : ℕ × ℕ) (hp : p ∈ pairsOfFace ty f) : p.1 ≠ p.2 := by
  unfold pairsOfFace at hp
  split at hp
  · rename_i hcond
    rcases f with _ | ⟨a, f⟩
    · simp at hcond
    rcases f with _ | ⟨b, f⟩
    · simp at hcond
    rcases f with _ | ⟨c, f⟩
    · simp at hcond
    rcases f with _ | ⟨d, f⟩
    · simp at hcond
    rcases f with _ | ⟨e, f⟩
    · simp only [List.nodup_cons, List.mem_cons, List.mem_singleton,
        List.not_mem_nil, not_or, List.nodup_nil] at hf
      simp only [List.mem_cons, List.mem_singleton, List.not_mem_nil,
        or_false] at hp
      rcases hp with rfl | rfl | rfl | rfl <;> simp only [] <;> omega
    · have := hcond.2
      simp only [List.length_cons] at this
      omega
  · exact allPairs_ne f hf p hp

theorem mkBodies_length (m d : ℚ) :
    ∀ vs : List ℚ, (mkBodies m d vs).length = vs.length / 3
  | [] => by simp [mkBodies]
  | [x] => by simp [mkBodies]
  | [x, y] => by simp [mkBodies]
  | x :: y :: z :: rest => by
    simp only [mkBodies, List.length_cons, mkBodies_length m d rest]
    omega

theorem vertexAt_cons3 (x y z : ℚ) (rest : List ℚ) (j : ℕ) :
    vertexAt (x :: y :: z :: rest) (j + 1) = vertexAt rest j := by
  unfold vertexAt
  simp only [Vec3.mk.injEq]
  refine ⟨?_, ?_, ?_⟩
  · rw [show 3 * (j + 1) = 3 * j + 1 + 1 + 1 by ring]
    simp only [List.getD_cons_succ]
  · rw [show 3 * (j + 1) + 1 = (3 * j + 1) + 1 + 1 + 1 by ring]
    simp only [List.getD_cons_succ]
  · rw [show 3 * (j + 1) + 2 = (3 * j + 2) + 1 + 1 + 1 by ring]
    simp only [List.getD_cons_succ]

theorem mkBodies_getD (m d : ℚ) :
    ∀ (vs : List ℚ) (j : ℕ), 3 * j + 2 < vs.length →
      (mkBodies m d vs).getD j ⟨Vec3.zero, 0, 0⟩ = ⟨vertexAt vs j, m, d⟩
  | x :: y :: z :: rest, 0, _ => by
    simp [mkBodies, vertexAt]
  | x :: y :: z :: rest, j + 1, h => by
    have h' : 3 * j + 2 < rest.length := by
      simp only [List.length_cons] at h
      omega
    simp only [mkBodies, List.getD_cons_succ, mkBodies_getD m d rest j h',
      vertexAt_cons3]
  | [], j, h => by simp at h
  | [x], j, h => by simp at h
  | [x, y], j, h => by simp at h

theorem getD_range_map {α : Type} (f : ℕ → α) (n i : ℕ) (hi : i < n) (d : α) :
    ((List.range n).map f).getD i d = f i := by
  rw [List.getD_eq_getElem?_getD, List.getElem?_map, List.getElem?_range hi]
  rfl

theorem couplingSprings_length (stiffness damping : ℚ)
    (inner_body outer_body : SoftObject) :
    (couplingSprings stiffness damping inner_body outer_body).length =
      inner_body.bodies.length := by
  simp [couplingSprings]

theorem couplingSprings_getD (stiffness damping : ℚ)
    (inner_body outer_body : SoftObject) (i : ℕ)
    (hi : i < inner_body.bodies.length) :
    (couplingSprings stiffness damping inner_body outer_body).getD i
        ⟨0, 0, 0, 0, 0⟩ =
      ⟨i, i,
       (inner_body.bodies.getD i ⟨Vec3.zero, 0, 0⟩).position.distanceTo
         (outer_body.bodies.getD i ⟨Vec3.zero, 0, 0⟩).position,
       stiffness, damping⟩ := by
  unfold couplingSprings
  rw [getD_range_map _ _ _ hi]

theorem couplingSprings_restLength (stiffness damping : ℚ)
    (inner_body outer_body : SoftObject) :
    ∀ s ∈ couplingSprings stiffness damping inner_body outer_body,
      s.restLength =
        (inner_body.bodies.getD s.bodyA ⟨Vec3.zero, 0, 0⟩).position.distanceTo
          (outer_body.bodies.getD s.bodyB ⟨Vec3.zero, 0, 0⟩).position := by
  intro s hs
  simp only [couplingSprings, List.mem_map] at hs
  obtain ⟨i, _, heq⟩ := hs
  subst heq
  rfl

theorem accumNormals_length (vertices : List ℚ) (normals : List Vec3)
    (t : ℕ × ℕ × ℕ) :
    (accumNormals vertices normals t).length = normals.length := by
  obtain ⟨vA, vB, vC⟩ := t
  simp [accumNormals]

theorem foldl_accumNormals_length (vertices : List ℚ) :
    ∀ (l : List (ℕ × ℕ × ℕ)) (normals : List Vec3),
      (l.foldl (accumNormals vertices) normals).length = normals.length
  | [], _ => rfl
  | t :: l, normals => by
    rw [List.foldl_cons, foldl_accumNormals_length vertices l _,
      accumNormals_length]

theorem computeVertexNormals_length (vertices : List ℚ) (indices : List ℕ) :
    (computeVertexNormals vertices indices).length = vertices.length / 3 := by
  simp [computeVertexNormals, foldl_accumNormals_length]

theorem innerVertices_length (offset : ℚ) :
    ∀ (vs : List ℚ) (ns : List Vec3), vs.length = 3 * ns.length →
      (innerVertices offset vs ns).length = vs.length := by
  intro vs ns
  induction ns generalizing vs with
  | nil =>
    intro h
    simp only [List.length_nil, Nat.mul_zero] at h
    have hnil : vs = [] := List.eq_nil_of_length_eq_zero h
    subst hnil
    rfl
  | cons n nr ih =>
    intro h
    rcases vs with _ | ⟨x, vs⟩
    · simp only [List.length_nil, List.length_cons] at h
      omega
    rcases vs with _ | ⟨y, vs⟩
    · simp only [List.length_nil, List.length_cons] at h
      omega
    rcases vs with _ | ⟨z, vs⟩
    · simp only [List.length_nil, List.length_cons] at h
      omega
    · simp only [List.length_cons] at h
      simp only [innerVertices, List.length_cons]
      rw [ih vs (by omega)]

/-- Square root of one. -/
theorem ratSqrt_one : Rat.sqrt 1 = 1 := by
  rw [show (1 : ℚ) = 1 * 1 by norm_num, Rat.sqrt_eq]
  norm_num

/-- The twelve triangles of the triangulated unit cube, as extracted by
`getTriangleVertices` from the constructed cube body. -/
def cubeTris : List (Vec3 × Vec3 × Vec3) :=
  [(⟨-1/2, -1/2, -1/2⟩, ⟨-1/2, 1/2, -1/2⟩, ⟨1/2, 1/2, -1/2⟩),
   (⟨1/2, 1/2, -1/2⟩, ⟨1/2, -1/2, -1/2⟩, ⟨-1/2, -1/2, -1/2⟩),
   (⟨-1/2, -1/2, 1/2⟩, ⟨1/2, -1/2, 1/2⟩, ⟨1/2, 1/2, 1/2⟩),
   (⟨1/2, 1/2, 1/2⟩, ⟨-1/2, 1/2, 1/2⟩, ⟨-1/2, -1/2, 1/2⟩),
   (⟨-1/2, -1/2, -1/2⟩, ⟨1/2, -1/2, -1/2⟩, ⟨1/2, -1/2, 1/2⟩),
   (⟨1/2, -1/2, 1/2⟩, ⟨-1/2, -1/2, 1/2⟩, ⟨-1/2, -1/2, -1/2⟩),
   (⟨1/2, 1/2, -1/2⟩, ⟨-1/2, 1/2, -1/2⟩, ⟨-1/2, 1/2, 1/2⟩),
   (⟨-1/2, 1/2, 1/2⟩, ⟨1/2, 1/2, 1/2⟩, ⟨1/2, 1/2, -1/2⟩),
   (⟨-1/2, -1/2, -1/2⟩, ⟨-1/2, -1/2, 1/2⟩, ⟨-1/2, 1/2, 1/2⟩),
   (⟨-1/2, 1/2, 1/2⟩, ⟨-1/2, 1/2, -1/2⟩, ⟨-1/2, -1/2, -1/2⟩),
   (⟨1/2, -1/2, -1/2⟩, ⟨1/2, 1/2, -1/2⟩, ⟨1/2, 1/2, 1/2⟩),
   (⟨1/2, 1/2, 1/2⟩, ⟨1/2, -1/2, 1/2⟩, ⟨1/2, -1/2, -1/2⟩)]

/-- Computed enclosed volume of the unit cube body. -/
theorem cube_volume : getVolume cubeBody = 1 := by
  have h : (List.range (numTris cubeBody)).map (fun i =>
      match getTriangleVertices cubeBody i with
      | (a, b, c) => signedVolume a b c) =
      cubeTris.map (fun t => match t with | (a, b, c) => signedVolume a b c) := rfl
  rw [getVolume, h]
  norm_num [cubeTris, signedVolume, Vec3.dot, Vec3.cross]

/-- Computed surface area of the unit cube body. -/
theorem cube_area : getSurfaceArea cubeBody = 6 := by
  have h : (List.range (numTris cubeBody)).map (fun i =>
      match getTriangleVertices cubeBody i with
      | (a, b, c) => area a b c) =
      cubeTris.map (fun t => match t with | (a, b, c) => area a b c) := rfl
  rw [getSurfaceArea, h]
  norm_num [cubeTris, area, Vec3.norm, Vec3.normSq, Vec3.cross, Vec3.vsub,
    ratSqrt_one]

/-- Square root of zero. -/
theorem ratSqrt_zero : Rat.sqrt 0 = 0 := by
  rw [show (0 : ℚ) = 0 * 0 by norm_num, Rat.sqrt_eq]
  norm_num

/-- Modelled from the spec: the "standard cross-product normal of
(b − a, c − a)" of §4.3, as the unit vector used for force application (a
degenerate triangle yields the zero vector rather than a division by
zero). -/
def specUnitNormal (a b c : Vec3) : Vec3 := ((b.vsub a).cross (c.vsub a)).unit

/-- Modelled from the spec's force law, word for word: with
`forceMagnitude = -pressureCoefficient / enclosedVolume`, for every
triangle the vector `unitNormal * forceMagnitude * triangleArea` — with
the spec's standard `(b − a) × (c − a)` unit normal — is applied
identically (full magnitude, not divided by 3) to each of the triangle's
three vertices. -/
def specPressureApplications (o : SoftObject) : List (ℕ × Vec3) :=
  let forceMagnitude := -(o.pressure / getVolume o)
  (List.range (numTris o)).flatMap fun i =>
    match getTriangleVertices o i with
    | (a, b, c) =>
      [(o.indices.getD (3 * i) 0,
        (specUnitNormal a b c).scale (forceMagnitude * area a b c)),
       (o.indices.getD (3 * i + 1) 0,
        (specUnitNormal a b c).scale (forceMagnitude * area a b c)),
       (o.indices.getD (3 * i + 2) 0,
        (specUnitNormal a b c).scale (forceMagnitude * area a b c))]

/-- Modelled from the amended claim: the applied vector is the negation of
the original claim's vector — the spec's standard `(b − a) × (c − a)` unit
normal times the positive magnitude
`pressureCoefficient / enclosedVolume` times the triangle area — applied
identically (full magnitude, not divided by 3) to each of the triangle's
three vertices. -/
def amendedPressureApplications (o : SoftObject) : List (ℕ × Vec3) :=
  let forceMagnitude := o.pressure / getVolume o
  (List.range (numTris o)).flatMap fun i =>
    match getTriangleVertices o i with
    | (a, b, c) =>
      [(o.indices.getD (3 * i) 0,
        (specUnitNormal a b c).scale (forceMagnitude * area a b c)),
       (o.indices.getD (3 * i + 1) 0,
        (specUnitNormal a b c).scale (forceMagnitude * area a b c)),
       (o.indices.getD (3 * i + 2) 0,
        (specUnitNormal a b c).scale (forceMagnitude * area a b c))]

/-- The cross product cannon's `Trimesh.computeNormal` takes,
`(c − b) × (b − a)`, is the negation of the spec's standard edge cross
product `(b − a) × (c − a)`. -/
theorem computeNormal_cross_neg (a b c : Vec3) :
    (c.vsub b).cross (b.vsub a) = ((b.vsub a).cross (c.vsub a)).scale (-1) := by
  simp only [Vec3.vsub, Vec3.cross, Vec3.scale, Vec3.mk.injEq]
  refine ⟨?_, ?_, ?_⟩ <;> ring

/-- A vector whose scaling by −1 is zero is itself zero. -/
theorem scale_neg_one_eq_zero {v : Vec3} (h : v.scale (-1) = Vec3.zero) :
    v = Vec3.zero := by
  obtain ⟨x, y, z⟩ := v
  simp only [Vec3.scale, Vec3.zero, Vec3.mk.injEq] at h ⊢
  obtain ⟨e1, e2, e3⟩ := h
  exact ⟨by linarith, by linarith, by linarith⟩

/-- Per-triangle force vector identity behind the amended claim: the code's
cannon-normal vector with magnitude `-1/V * p * area` equals the
spec-normal vector with the positive magnitude `p/V * area`. -/
theorem code_vector_eq_amended (V p ar : ℚ) (a b c : Vec3) :
    (computeNormal a b c).scale (-1 / V * p * ar) =
      (specUnitNormal a b c).scale (p / V * ar) := by
  have hneg : (c.vsub b).cross (b.vsub a) =
      ((b.vsub a).cross (c.vsub a)).scale (-1) := computeNormal_cross_neg a b c
  have hnormSq : ((c.vsub b).cross (b.vsub a)).normSq =
      ((b.vsub a).cross (c.vsub a)).normSq := by
    rw [hneg]
    simp only [Vec3.scale, Vec3.normSq]
    ring
  have hnorm : ((c.vsub b).cross (b.vsub a)).norm =
      ((b.vsub a).cross (c.vsub a)).norm := by
    simp only [Vec3.norm, hnormSq]
  by_cases hz : (b.vsub a).cross (c.vsub a) = Vec3.zero
  · have hz1 : (c.vsub b).cross (b.vsub a) = Vec3.zero := by
      rw [hneg, hz]
      simp only [Vec3.scale, Vec3.zero, Vec3.mk.injEq]
      norm_num
    have h0 : (Vec3.zero : Vec3).norm = 0 := by
      simp [Vec3.norm, Vec3.normSq, Vec3.zero, ratSqrt_zero]
    simp only [computeNormal, specUnitNormal, Vec3.unit]
    rw [if_pos hz1, hz1, hz, h0, if_neg (lt_irrefl 0)]
    simp [Vec3.scale, Vec3.zero]
  · have hz1 : ¬ (c.vsub b).cross (b.vsub a) = Vec3.zero := by
      intro h
      rw [hneg] at h
      exact hz (scale_neg_one_eq_zero h)
    simp only [computeNormal, specUnitNormal, Vec3.unit]
    rw [if_neg hz1, hnorm]
    by_cases hpos : 0 < ((b.vsub a).cross (c.vsub a)).norm
    · rw [if_pos hpos, if_pos hpos, hneg]
      simp only [Vec3.scale, Vec3.mk.injEq]
      refine ⟨?_, ?_, ?_⟩ <;> ring
    · rw [if_neg hpos, if_neg hpos]
      simp [Vec3.scale, Vec3.zero]

/-!
Claim theorems.
-/

/-- C1 counterexample: the unit cube body is PRESSURE-typed with nonzero
enclosed volume, yet the per-step pressure force applications differ from
the claim's `unitNormal * (-pressure/enclosedVolume) * triangleArea`
vectors taken with the spec's standard `(b − a) × (c − a)` unit normal:
the code applies the opposite vector on every non-degenerate triangle. -/
theorem pressure_direction_counterexample :
    cubeBody.type = SoftType.PRESSURE ∧ getVolume cubeBody ≠ 0 ∧
    pressureApplications cubeBody ≠ specPressureApplications cubeBody := by
  refine ⟨rfl, by rw [cube_volume]; exact one_ne_zero, ?_⟩
  intro h
  have hcode : ((pressureApplications cubeBody).getD 0 (0, Vec3.zero)).2.z = -25 := by
    have e : ((pressureApplications cubeBody).getD 0 (0, Vec3.zero)).2 =
        (computeNormal ⟨-1/2, -1/2, -1/2⟩ ⟨-1/2, 1/2, -1/2⟩ ⟨1/2, 1/2, -1/2⟩).scale
          (-1 / getVolume cubeBody * cubeBody.pressure *
            area ⟨-1/2, -1/2, -1/2⟩ ⟨-1/2, 1/2, -1/2⟩ ⟨1/2, 1/2, -1/2⟩) := rfl
    rw [e, cube_volume, show cubeBody.pressure = 50 from rfl]
    norm_num [computeNormal, area, Vec3.vsub, Vec3.cross, Vec3.unit, Vec3.norm,
      Vec3.normSq, Vec3.zero, Vec3.scale, Vec3.mk.injEq, ratSqrt_one]
  have hspec : ((specPressureApplications cubeBody).getD 0 (0, Vec3.zero)).2.z = 25 := by
    have e : ((specPressureApplications cubeBody).getD 0 (0, Vec3.zero)).2 =
        (specUnitNormal ⟨-1/2, -1/2, -1/2⟩ ⟨-1/2, 1/2, -1/2⟩ ⟨1/2, 1/2, -1/2⟩).scale
          (-(cubeBody.pressure / getVolume cubeBody) *
            area ⟨-1/2, -1/2, -1/2⟩ ⟨-1/2, 1/2, -1/2⟩ ⟨1/2, 1/2, -1/2⟩) := rfl
    rw [e, cube_volume, show cubeBody.pressure = 50 from rfl]
    norm_num [specUnitNormal, area, Vec3.vsub, Vec3.cross, Vec3.unit, Vec3.norm,
      Vec3.normSq, Vec3.zero, Vec3.scale, Vec3.mk.injEq, ratSqrt_one]
  rw [h, hspec] at hcode
  norm_num at hcode

/-- C1 amended: for every PRESSURE or HYBRID body with nonzero enclosed
volume, `postStep` applies, for every triangle of the triangle buffer, the
negation of the original claim's vector — the spec's standard
`(b − a) × (c − a)` unit normal times the positive magnitude
`pressure / enclosedVolume` times the triangle area — identically, at full
magnitude (not divided by 3), to each of the triangle's three vertices.
(The code's `CANNON.Trimesh.computeNormal` normal is `(c − b) × (b − a)`,
the negation of the spec's stated normal, so the negative force magnitude
`-1/volume * pressure` produces the opposite of the claim's vector.) -/
theorem pressure_force_per_triangle_amended (o : SoftObject)
    (h1 : o.type = SoftType.PRESSURE ∨ o.type = SoftType.HYBRID)
    (h2 : getVolume o ≠ 0) :
    pressureApplications o = amendedPressureApplications o := by
  simp only [pressureApplications, amendedPressureApplications]
  congr 1
  funext i
  rcases hT : getTriangleVertices o i with ⟨a, b, c⟩
  dsimp only
  rw [code_vector_eq_amended (getVolume o) o.pressure (area a b c) a b c]

/-- Witness for C1 (amended) at the unit cube body. -/
theorem pressure_force_per_triangle_amended_witness :
    (cubeBody.type = SoftType.PRESSURE ∨ cubeBody.type = SoftType.HYBRID) ∧
    getVolume cubeBody ≠ 0 ∧
    pressureApplications cubeBody = amendedPressureApplications cubeBody :=
  ⟨Or.inl rfl, by rw [cube_volume]; exact one_ne_zero,
   pressure_force_per_triangle_amended cubeBody (Or.inl rfl)
     (by rw [cube_volume]; exact one_ne_zero)⟩

/-- C2: the enclosed volume is the absolute value of the summed signed
tetrahedron volumes `a · (b × c) / 6`, the surface area is the sum of the
per-triangle areas (half the edge cross product magnitude), and for the
unit cube the computed volume is exactly 1 and the computed surface area is
exactly 6. -/
theorem volume_and_area_formulas_and_unit_cube :
    getVolume cubeBody = 1 ∧ getSurfaceArea cubeBody = 6 ∧
    ∀ o : SoftObject,
      getVolume o =
        |((List.range (numTris o)).map fun i =>
          match getTriangleVertices o i with
          | (a, b, c) => a.dot (b.cross c) / 6).sum| ∧
      getSurfaceArea o =
        ((List.range (numTris o)).map fun i =>
          match getTriangleVertices o i with
          | (a, b, c) => ((b.vsub a).cross (c.vsub a)).norm / 2).sum := by
  refine ⟨cube_volume, cube_area, fun o => ⟨rfl, ?_⟩⟩
  have h0 : getSurfaceArea o =
      |((List.range (numTris o)).map fun i =>
        match getTriangleVertices o i with
        | (a, b, c) => ((b.vsub a).cross (c.vsub a)).norm / 2).sum| := rfl
  rw [h0, abs_of_nonneg]
  apply List.sum_nonneg
  intro x hx
  simp only [List.mem_map] at hx
  obtain ⟨i, _, rfl⟩ := hx
  rcases getTriangleVertices o i with ⟨a, b, c⟩
  dsimp only
  exact div_nonneg (Rat.sqrt_nonneg _) (by norm_num)

/-- C3: the spring network builder connects, per face: for a quad face of a
PRESSURE body exactly the 4 perimeter pairs and no diagonal; for a quad
face of a MASS_SPRING body all 6 combinatorial pairs including both
diagonals; for a triangle face of any type exactly its 3 edges. -/
theorem pairs_per_face_by_type :
    ∀ a b c d : ℕ,
      pairsOfFace SoftType.PRESSURE [a, b, c, d] =
        [(a, b), (b, c), (c, d), (d, a)] ∧
      pairsOfFace SoftType.MASS_SPRING [a, b, c, d] =
        [(a, b), (a, c), (a, d), (b, c), (b, d), (c, d)] ∧
      ∀ ty : SoftType, pairsOfFace ty [a, b, c] = [(a, b), (a, c), (b, c)] := by
  intro a b c d
  refine ⟨?_, ?_, ?_⟩
  · simp [pairsOfFace]
  · simp [pairsOfFace, allPairs]
  · intro ty
    simp [pairsOfFace, allPairs]

/-- C4 counterexample: on a face list containing a face with a repeated
vertex index, the constructed spring set contains a self-pair spring. -/
theorem spring_self_pair_counterexample :
    ∃ s ∈ (mkSoftObject flatVertices [[0, 0, 1]] none).springs,
      s.bodyA = s.bodyB := by
  decide

/-- C4 amended: for every input, no two springs span the same unordered
pair; and when every face has pairwise-distinct vertex indices, no spring
is a self-pair. -/
theorem spring_set_dedup_amended :
    ∀ (vertices : List ℚ) (faces : List (List ℕ)) (options : Option SoftOptions),
      ((mkSoftObject vertices faces options).springs.Pairwise
        fun s t => ¬ sameUnorderedPair s t) ∧
      ((∀ f ∈ faces, f.Nodup) →
        ∀ s ∈ (mkSoftObject vertices faces options).springs,
          s.bodyA ≠ s.bodyB) := by
  intro vertices faces options
  constructor
  · exact buildSprings_dedup _ _ _ _ _
  · intro hN s hs
    obtain ⟨p, hp, rfl⟩ := buildSprings_origin _ _ _ _ _ s hs
    simp only [List.mem_flatMap] at hp
    obtain ⟨f, hf, hpf⟩ := hp
    have hne := pairsOfFace_ne _ f (hN f hf) p hpf
    simpa [mkSpringOf] using hne

/-- Witness for C4 (amended) at a triangle face with distinct vertices. -/
theorem spring_set_dedup_amended_witness :
    (∀ f ∈ [[0, 1, 2]], List.Nodup f) ∧
    (((mkSoftObject flatVertices [[0, 1, 2]] none).springs.Pairwise
        fun s t => ¬ sameUnorderedPair s t) ∧
      ∀ s ∈ (mkSoftObject flatVertices [[0, 1, 2]] none).springs,
        s.bodyA ≠ s.bodyB) :=
  ⟨by decide,
   ⟨(spring_set_dedup_amended flatVertices [[0, 1, 2]] none).1,
    (spring_set_dedup_amended flatVertices [[0, 1, 2]] none).2 (by decide)⟩⟩

/-- C7: on a degenerate flat mesh the computed enclosed volume is 0, yet
the pressure force application loop is not skipped — with default pressure
50 it still applies a force entry to each of the triangle's three vertices
(in JS the magnitude `-pressure / 0` is infinite). -/
theorem zero_volume_not_skipped :
    getVolume flatBody = 0 ∧
    flatBody.pressure = 50 ∧
    (pressureApplications flatBody).map Prod.fst = [0, 1, 2] := by
  refine ⟨?_, rfl, by decide⟩
  have h : (List.range (numTris flatBody)).map (fun i =>
      match getTriangleVertices flatBody i with
      | (a, b, c) => signedVolume a b c) =
      [signedVolume ⟨0, 0, 0⟩ ⟨1, 0, 0⟩ ⟨0, 1, 0⟩] := rfl
  rw [getVolume, h]
  norm_num [signedVolume, Vec3.dot, Vec3.cross]

/-- C8: after `addSelf` followed by `removeSelf`, the `postStep` listener
registered by `addSelf` (identity 0) is still registered — because
`removeSelf` passes a fresh `this.postStep.bind(this)` closure to
`removeEventListener` — while every body has been removed from the world;
a second `removeSelf` raises no error and changes nothing. -/
theorem detach_leaves_listener_registered :
    (addSelf [10, 11, 12] ⟨[], [], 0⟩).postStepListeners = [0] ∧
    (removeSelf [10, 11, 12]
      (addSelf [10, 11, 12] ⟨[], [], 0⟩)).postStepListeners = [0] ∧
    (removeSelf [10, 11, 12]
      (addSelf [10, 11, 12] ⟨[], [], 0⟩)).bodyIds = [] ∧
    (removeSelf [10, 11, 12] (removeSelf [10, 11, 12]
      (addSelf [10, 11, 12] ⟨[], [], 0⟩))).postStepListeners = [0] ∧
    (removeSelf [10, 11, 12] (removeSelf [10, 11, 12]
      (addSelf [10, 11, 12] ⟨[], [], 0⟩))).bodyIds = [] := by
  decide

/-- C9: constructing a body and running zero simulation ticks leaves both
the render mesh position buffer and the collision shape vertex buffer
exactly equal to the input vertex array. -/
theorem zero_tick_roundtrip :
    ∀ (vertices : List ℚ) (faces : List (List ℕ)) (options : Option SoftOptions),
      (mkSoftObject vertices faces options).meshPositions = vertices ∧
      (mkSoftObject vertices faces options).shapeVertices = vertices :=
  fun _ _ _ => ⟨rfl, rfl⟩

/-- C5: a hybrid body over a mesh with N shared vertices has exactly N
coupling springs, one per vertex index i, connecting inner shell particle i
to outer shell particle i. -/
theorem coupling_springs_one_per_vertex :
    ∀ (vertices : List ℚ) (faces : List (List ℕ))
      (options : Option HybridOptions) (N : ℕ),
      vertices.length = 3 * N →
      (mkHybridSoftObject vertices faces options).springs.length = N ∧
      ∀ i < N,
        ((mkHybridSoftObject vertices faces options).springs.getD i
          ⟨0, 0, 0, 0, 0⟩).bodyA = i ∧
        ((mkHybridSoftObject vertices faces options).springs.getD i
          ⟨0, 0, 0, 0, 0⟩).bodyB = i := by
  intro vertices faces options N hV
  have hN3 : vertices.length =
      3 * (computeVertexNormals vertices (triangulate faces)).length := by
    rw [computeVertexNormals_length, hV]
    omega
  have hlen : (mkHybridSoftObject vertices faces options).inner_body.bodies.length = N := by
    show (mkBodies _ _
      (innerVertices _ vertices (computeVertexNormals vertices (triangulate faces)))).length = N
    rw [mkBodies_length, innerVertices_length _ vertices _ hN3, hV]
    omega
  have hs : (mkHybridSoftObject vertices faces options).springs =
      couplingSprings ((options.bind HybridOptions.stiffness).getD 200)
        ((options.bind HybridOptions.damping).getD (2/5))
        (mkHybridSoftObject vertices faces options).inner_body
        (mkHybridSoftObject vertices faces options).outer_body := rfl
  constructor
  · rw [hs, couplingSprings_length, hlen]
  · intro i hi
    rw [hs, couplingSprings_getD _ _ _ _ i (by rw [hlen]; exact hi)]
    exact ⟨rfl, rfl⟩

/-- Witness for C5 at the flat triangle mesh (3 shared vertices). -/
theorem coupling_springs_one_per_vertex_witness :
    flatVertices.length = 3 * 3 ∧
    ((mkHybridSoftObject flatVertices flatFaces none).springs.length = 3 ∧
      ∀ i < 3,
        ((mkHybridSoftObject flatVertices flatFaces none).springs.getD i
          ⟨0, 0, 0, 0, 0⟩).bodyA = i ∧
        ((mkHybridSoftObject flatVertices flatFaces none).springs.getD i
          ⟨0, 0, 0, 0, 0⟩).bodyB = i) :=
  ⟨by decide,
   coupling_springs_one_per_vertex flatVertices flatFaces none 3 (by decide)⟩

/-- C6: every structural spring of a SoftBody and every coupling spring of
a HybridSoftBody has rest length equal to the distance between its two
endpoint particles' positions at the moment the spring was created. -/
theorem rest_length_eq_construction_distance :
    ∀ (vertices : List ℚ) (faces : List (List ℕ))
      (options : Option SoftOptions) (hoptions : Option HybridOptions),
      (∀ f ∈ faces, ∀ j ∈ f, 3 * j + 2 < vertices.length) →
      (∀ s ∈ (mkSoftObject vertices faces options).springs,
        s.restLength =
          ((mkSoftObject vertices faces options).bodies.getD s.bodyA
            ⟨Vec3.zero, 0, 0⟩).position.distanceTo
          ((mkSoftObject vertices faces options).bodies.getD s.bodyB
            ⟨Vec3.zero, 0, 0⟩).position) ∧
      (∀ s ∈ (mkHybridSoftObject vertices faces hoptions).springs,
        s.restLength =
          ((mkHybridSoftObject vertices faces hoptions).inner_body.bodies.getD
            s.bodyA ⟨Vec3.zero, 0, 0⟩).position.distanceTo
          ((mkHybridSoftObject vertices faces hoptions).outer_body.bodies.getD
            s.bodyB ⟨Vec3.zero, 0, 0⟩).position) := by
  intro vertices faces options hoptions hin
  constructor
  · intro s hs
    obtain ⟨p, hp, rfl⟩ := buildSprings_origin _ _ _ _ _ s hs
    simp only [List.mem_flatMap] at hp
    obtain ⟨f, hf, hpf⟩ := hp
    obtain ⟨h1, h2⟩ := mem_pairsOfFace _ f p hpf
    have hb1 : 3 * p.1 + 2 < vertices.length := hin f hf p.1 h1
    have hb2 : 3 * p.2 + 2 < vertices.length := hin f hf p.2 h2
    have hbodies : (mkSoftObject vertices faces options).bodies =
        mkBodies ((options.bind SoftOptions.point_mass).getD (1/20))
          ((options.bind SoftOptions.point_damping).getD (3/10)) vertices := rfl
    simp only [mkSpringOf]
    rw [hbodies, mkBodies_getD _ _ vertices p.1 hb1,
      mkBodies_getD _ _ vertices p.2 hb2]
  · intro s hs
    have hs' : s ∈ couplingSprings
        ((hoptions.bind HybridOptions.stiffness).getD 200)
        ((hoptions.bind HybridOptions.damping).getD (2/5))
        (mkHybridSoftObject vertices faces hoptions).inner_body
        (mkHybridSoftObject vertices faces hoptions).outer_body := hs
    exact couplingSprings_restLength _ _ _ _ s hs'

/-- Witness for C6 at the flat triangle mesh. -/
theorem rest_length_eq_construction_distance_witness :
    (∀ f ∈ flatFaces, ∀ j ∈ f, 3 * j + 2 < flatVertices.length) ∧
    ((∀ s ∈ (mkSoftObject flatVertices flatFaces none).springs,
        s.restLength =
          ((mkSoftObject flatVertices flatFaces none).bodies.getD s.bodyA
            ⟨Vec3.zero, 0, 0⟩).position.distanceTo
          ((mkSoftObject flatVertices flatFaces none).bodies.getD s.bodyB
            ⟨Vec3.zero, 0, 0⟩).position) ∧
      (∀ s ∈ (mkHybridSoftObject flatVertices flatFaces none).springs,
        s.restLength =
          ((mkHybridSoftObject flatVertices flatFaces none).inner_body.bodies.getD
            s.bodyA ⟨Vec3.zero, 0, 0⟩).position.distanceTo
          ((mkHybridSoftObject flatVertices flatFaces none).outer_body.bodies.getD
            s.bodyB ⟨Vec3.zero, 0, 0⟩).position)) :=
  ⟨by decide,
   rest_length_eq_construction_distance flatVertices flatFaces none none (by decide)⟩

/-- C10: for a vertex array of length 3·V the constructor creates exactly V
particles, and particle i sits at position (vertices[3i], vertices[3i+1],
vertices[3i+2]) with the configured point mass and point damping. -/
theorem particles_one_per_vertex :
    ∀ (vertices : List ℚ) (faces : List (List ℕ))
      (options : Option SoftOptions) (V : ℕ),
      vertices.length = 3 * V →
      (mkSoftObject vertices faces options).bodies.length = V ∧
      ∀ i < V,
        (mkSoftObject vertices faces options).bodies.getD i ⟨Vec3.zero, 0, 0⟩ =
          ⟨⟨vertices.getD (3 * i) 0, vertices.getD (3 * i + 1) 0,
            vertices.getD (3 * i + 2) 0⟩,
           (mkSoftObject vertices faces options).point_mass,
           (mkSoftObject vertices faces options).point_damping⟩ := by
  intro vertices faces options V hV
  constructor
  · have h : (mkSoftObject vertices faces options).bodies.length =
        vertices.length / 3 := mkBodies_length _ _ vertices
    rw [h, hV]
    omega
  · intro i hi
    have hb : 3 * i + 2 < vertices.length := by omega
    exact mkBodies_getD _ _ vertices i hb

/-- Witness for C10 at the flat triangle mesh (V = 3). -/
theorem particles_one_per_vertex_witness :
    flatVertices.length = 3 * 3 ∧
    ((mkSoftObject flatVertices flatFaces none).bodies.length = 3 ∧
      ∀ i < 3,
        (mkSoftObject flatVertices flatFaces none).bodies.getD i ⟨Vec3.zero, 0, 0⟩ =
          ⟨⟨flatVertices.getD (3 * i) 0, flatVertices.getD (3 * i + 1) 0,
            flatVertices.getD (3 * i + 2) 0⟩,
           (mkSoftObject flatVertices flatFaces none).point_mass,
           (mkSoftObject flatVertices flatFaces none).point_damping⟩) :=
  ⟨by decide,
   particles_one_per_vertex flatVertices flatFaces none 3 (by decide)⟩

end Softbody
